import Mathlib

/-!
Verification of the matching-and-overlay engine of the live-highlighter
content script (`src/content/content.js`).

The engine is embedded shallowly:

* text segments are `List Char`;
* JS `String.prototype.indexOf` is `jsIndexOf`;
* the per-text-node match scan of `highlightTextNode` (literal substring
  path and pattern-expression path, with the shared overlap check) is a
  fuel-indexed loop returning `Option (List MatchSpan)`, `none` meaning
  the fuel ran out before the loop finished;
* the JS regex engine is abstracted as `CompiledRegex`: an `exec`
  function together with the two facts JS guarantees for a `g`-flagged
  regex (a match starts at or after `lastIndex`, and lies inside the
  string);
* the navigation subsystem (range cache, `buildNavigationList`,
  `navigateHighlight`, `getNavigationState`, `clearNavigation`,
  `clearAllHighlights`) is a pure state-passing model `NavState`, with
  DOM ranges abstracted as `NavRange` records carrying the attributes
  the code reads (owner document, connectedness, text, document
  position).
-/

/-! ## Rule compiler (`flattenGroupsToRules`, content.js lines 56-80) -/

/-- A configuration group as stored (`storage.js` schema). `words` are
text segments; the `|| false` defaulting of the three option flags in
the source is an undefined-guard, modelled by plain `Bool` fields. -/
structure HighlightGroup where
  colour : String
  textColor : String
  enabled : Bool
  order : Int
  words : List (List Char)
  matchWholeWord : Bool
  caseSensitive : Bool
  useRegex : Bool
deriving Repr, DecidableEq

/-- A flattened highlighting rule (the objects pushed by
`flattenGroupsToRules`). -/
structure Rule where
  text : List Char
  colour : String
  textColor : String
  enabled : Bool
  order : Int
  matchWholeWord : Bool
  caseSensitive : Bool
  useRegex : Bool
deriving Repr, DecidableEq

/-- JS `String.prototype.trim`: strip whitespace from both ends. -/
def jsTrim (w : List Char) : List Char :=
  ((w.dropWhile Char.isWhitespace).reverse.dropWhile Char.isWhitespace).reverse

/-- The rule built for one word of a group (content.js lines 66-75):
the word is trimmed and the group's colour, order and match options are
inherited; `enabled` is set to `true`. -/
def wordToRule (group : HighlightGroup) (word : List Char) : Rule :=
  { text := jsTrim word
    colour := group.colour
    textColor := group.textColor
    enabled := true
    order := group.order
    matchWholeWord := group.matchWholeWord
    caseSensitive := group.caseSensitive
    useRegex := group.useRegex }

/-- `flattenGroupsToRules` (content.js lines 56-80): for each group in
input order, skip it when disabled, otherwise push one rule per word.
No sorting is performed. -/
def flattenGroupsToRules (groups : List HighlightGroup) : List Rule :=
  groups.foldl
    (fun flatRules group =>
      if group.enabled then flatRules ++ group.words.map (wordToRule group)
      else flatRules)
    []

/-! ## Match spans and the overlap check -/

/-- An accepted match span (the objects pushed into `ms` in
`highlightTextNode`; the source field `end` is named `stop` here since
`end` is a Lean keyword). -/
structure MatchSpan where
  start : Nat
  stop : Nat
  rule : Rule
deriving Repr, DecidableEq

/-- The overlap test applied to a candidate occurrence
`[index, endIndex)` against one already-accepted span `m` (content.js
lines 406-410 and 450-454, identical in both matching paths):
`(index >= m.start && index < m.end) || (endIndex > m.start && endIndex <= m.end) || (index <= m.start && endIndex >= m.end)`. -/
def overlapsCheck (index endIndex : Nat) (m : MatchSpan) : Bool :=
  (decide (m.start ≤ index) && decide (index < m.stop)) ||
  (decide (m.start < endIndex) && decide (endIndex ≤ m.stop)) ||
  (decide (index ≤ m.start) && decide (m.stop ≤ endIndex))

/-- The accept-or-drop step shared by both matching paths (content.js
lines 405-418 and 449-462): a found occurrence is appended only when it
overlaps no already-accepted span; otherwise the list is unchanged. -/
def addMatchIfNotOverlapping (index endIndex : Nat) (rule : Rule)
    (ms : List MatchSpan) : List MatchSpan :=
  if ms.any (overlapsCheck index endIndex) then ms
  else ms ++ [⟨index, endIndex, rule⟩]

/-- Two spans are separated when their `[start, stop)` ranges do not
overlap (the spec's `spanI.end <= spanJ.start ∨ spanJ.end <= spanI.start`). -/
def Separated (a b : MatchSpan) : Prop :=
  a.stop ≤ b.start ∨ b.stop ≤ a.start

/-! ## JS `indexOf` -/

/-- Does `needle` occur in `hay` starting at position `k`? -/
def isMatchAt (hay needle : List Char) (k : Nat) : Bool :=
  decide (k + needle.length ≤ hay.length ∧ (hay.drop k).take needle.length = needle)

/-- Search positions `k, k+1, …, k+r` for an occurrence of `needle`. -/
def indexOfAux (hay needle : List Char) : Nat → Nat → Option Nat
  | k, 0 => if isMatchAt hay needle k then some k else none
  | k, r + 1 => if isMatchAt hay needle k then some k else indexOfAux hay needle (k + 1) r

/-- JS `hay.indexOf(needle, start)` for a non-negative `start`:
the least position `≥ min start hay.length` where `needle` occurs
(`none` for JS's `-1`); an empty needle occurs everywhere, so the
clamped start position itself is returned. -/
def jsIndexOf (hay needle : List Char) (start : Nat) : Option Nat :=
  indexOfAux hay needle (min start hay.length) (hay.length - min start hay.length)

/-! ## The per-text-node scan (`highlightTextNode`, content.js 356-467) -/

/-- JS `\w` (content.js line 375): ASCII letters, digits, underscore. -/
def isWordChar (c : Char) : Bool :=
  c.isAlphanum || c == '_'

/-- `isWordBoundary` (content.js lines 372-376): positions outside the
text count as boundaries, inside the text a boundary is a non-word
character. The index is an `Int` because the call site passes
`index - 1`, which is `-1` at the start of the text. -/
def isWordBoundary (text : List Char) (index : Int) : Bool :=
  if index < 0 || (text.length : Int) ≤ index then true
  else !(isWordChar (text.getD index.toNat ' '))

/-- An abstract compiled `g`-flagged JS regex: `exec text lastIndex`
either fails (JS `null`) or returns the match position and length. The
two contract facts are what JS guarantees: the match starts at or after
`lastIndex`, and lies within the text (hence `exec` fails whenever
`lastIndex` exceeds the text length). -/
structure CompiledRegex where
  exec : List Char → Nat → Option (Nat × Nat)
  exec_ge : ∀ t li i l, exec t li = some (i, l) → li ≤ i
  exec_bound : ∀ t li i l, exec t li = some (i, l) → i + l ≤ t.length

/-- `new RegExp(pattern, 'g')`: compilation of a pattern either throws
(`none`, the rule is then skipped) or yields a compiled regex. -/
def RegexCompiler : Type :=
  List Char → Option CompiledRegex

/-- The regex matching loop of `highlightTextNode` (content.js lines
394-419), fuel-indexed. A zero-length match bumps `lastIndex` by one and
is not recorded; a real match is accepted unless it overlaps an
already-accepted span, and the loop resumes at its end. -/
def regexScanLoop (regex : CompiledRegex) (rule : Rule) (text : List Char) :
    Nat → Nat → List MatchSpan → Option (List MatchSpan)
  | 0, _, _ => none
  | fuel + 1, lastIndex, ms =>
    match regex.exec text lastIndex with
    | none => some ms
    | some (index, len) =>
      if len = 0 then
        regexScanLoop regex rule text fuel (index + 1) ms
      else
        regexScanLoop regex rule text fuel (index + len)
          (addMatchIfNotOverlapping index (index + len) rule ms)

/-- The literal substring matching loop of `highlightTextNode`
(content.js lines 429-465), fuel-indexed. `searchLen` is
`searchText.length`, i.e. `rule.text.length` at the call site. Whether
the whole-word check passes or fails, the next search resumes at
`index + 1`. -/
def literalScanLoop (rule : Rule) (text compareText compareSearch : List Char)
    (searchLen : Nat) (matchWholeWord : Bool) :
    Nat → Nat → List MatchSpan → Option (List MatchSpan)
  | 0, _, _ => none
  | fuel + 1, startIndex, ms =>
    match jsIndexOf compareText compareSearch startIndex with
    | none => some ms
    | some index =>
      let endIndex := index + searchLen
      let isValidMatch :=
        if matchWholeWord then
          isWordBoundary text ((index : Int) - 1) && isWordBoundary text (endIndex : Int)
        else true
      literalScanLoop rule text compareText compareSearch searchLen matchWholeWord
        fuel (index + 1)
        (if isValidMatch then addMatchIfNotOverlapping index endIndex rule ms
         else ms)

/-- One iteration of the `for (const rule of rules)` body (content.js
lines 379-467): disabled rules are skipped; a pattern-expression rule is
compiled (a failed compile skips the rule) and scanned with the regex
loop; a literal rule is scanned with the case-adjusted substring loop. -/
def scanRule (compiler : RegexCompiler) (fuel : Nat) (text : List Char)
    (ms : List MatchSpan) (rule : Rule) : Option (List MatchSpan) :=
  if !rule.enabled then some ms
  else if rule.useRegex then
    match compiler rule.text with
    | none => some ms
    | some regex => regexScanLoop regex rule text fuel 0 ms
  else
    let compareText := if rule.caseSensitive then text else text.map Char.toLower
    let compareSearch := if rule.caseSensitive then rule.text else rule.text.map Char.toLower
    literalScanLoop rule text compareText compareSearch rule.text.length
      rule.matchWholeWord fuel 0 ms

/-- The rule iteration of `highlightTextNode`: rules are scanned in list
order, each rule seeing the spans accepted by the rules before it. -/
def scanRulesFrom (compiler : RegexCompiler) (fuel : Nat) (text : List Char) :
    List Rule → List MatchSpan → Option (List MatchSpan)
  | [], ms => some ms
  | rule :: rest, ms =>
    match scanRule compiler fuel text ms rule with
    | none => none
    | some newMatches => scanRulesFrom compiler fuel text rest newMatches

/-- The match-computation phase of `highlightTextNode` (content.js lines
356-467): an empty text returns immediately with no ms (`if (!text) return`),
otherwise every rule is scanned in order starting from an empty span list. -/
def highlightTextNode (compiler : RegexCompiler) (fuel : Nat) (rules : List Rule)
    (text : List Char) : Option (List MatchSpan) :=
  if text.isEmpty then some []
  else scanRulesFrom compiler fuel text rules []

/-- A regex compiler with no compilable patterns; literal rules never
consult it. -/
def noRegexCompiler : RegexCompiler :=
  fun _ => none

/-! ## Navigation model (content.js lines 25-30, 499-527, 733-882) -/

/-- A cached DOM `Range`, abstracted to the attributes the navigation
code reads: whether its start container belongs to the main document
(`range.startContainer.ownerDocument === document`), whether it is still
connected, its text (`range.toString()`), and its document position
(`compareBoundaryPoints` compares these). -/
structure NavRange where
  inMainDoc : Bool
  isConnected : Bool
  text : List Char
  pos : Int
deriving Repr, DecidableEq

/-- Placeholder used for the (provably in-bounds) `navRanges[navCurrentIndex]`
array read. -/
def dummyRange : NavRange :=
  { inMainDoc := false, isConnected := false, text := [], pos := 0 }

/-- The engine's navigation-related mutable state: the region cache
`rangeCache : Map<highlightName, Set<Range>>` (insertion-ordered, so a
list of entries), `navRanges`, `navCurrentIndex` (`-1` = not
positioned), `navDirty`, and the active-navigation highlight entry of
`CSS.highlights` (`ACTIVE_HIGHLIGHT_NAME`). -/
structure NavState where
  rangeCache : List (String × List NavRange)
  navRanges : List NavRange
  navCurrentIndex : Int
  navDirty : Bool
  active : Option NavRange
deriving Repr, DecidableEq

/-- Initial module state (content.js lines 25-30). -/
def initialNavState : NavState :=
  { rangeCache := [], navRanges := [], navCurrentIndex := -1, navDirty := false,
    active := none }

/-- The filter of `buildNavigationList` (content.js lines 741-743): a
range is kept only when it is in the main document, still connected, and
non-empty in text. -/
def eligibleRange (r : NavRange) : Bool :=
  r.inMainDoc && r.isConnected && decide (0 < r.text.length)

/-- Insert a range into a position-sorted list, after existing entries
with a smaller-or-equal position. -/
def insertByPos (r : NavRange) : List NavRange → List NavRange
  | [] => [r]
  | x :: xs => if x.pos ≤ r.pos then x :: insertByPos r xs else r :: x :: xs

/-- The `navRanges.sort` call (content.js lines 753-760): stable sort by
document position (the comparator is `compareBoundaryPoints`, modelled
by the `pos` key). -/
def sortByPos (l : List NavRange) : List NavRange :=
  l.foldl (fun acc r => insertByPos r acc) []

/-- `buildNavigationList` (content.js lines 733-764): collect from the
range cache every range still in the main document, connected and
non-empty, sort them in document order, and reset the cursor to `-1`
and the dirty flag. The range cache itself is only read, never written. -/
def buildNavigationList (s : NavState) : NavState :=
  let collected := s.rangeCache.foldl (fun acc entry => acc ++ entry.2.filter eligibleRange) []
  { s with navRanges := sortByPos collected, navCurrentIndex := -1, navDirty := false }

/-- The two sides of `navigateHighlight(direction)`. -/
inductive NavDirection
  | next
  | prev
deriving Repr, DecidableEq

/-- The value returned by `navigateHighlight` and `getNavigationState`:
1-based index (0 when not positioned), total count, matched text. -/
structure NavResult where
  index : Int
  total : Nat
  text : List Char
deriving Repr, DecidableEq

/-- `navigateHighlight` (content.js lines 771-792): rebuild when dirty
or empty; on an empty list report `{index: 0, total: 0, text: ''}`;
otherwise step the cursor with wraparound (JS `%` is truncating
division's remainder, `Int.tmod`), set the active highlight to the
region at the cursor (`setActiveHighlight`, lines 798-808) and return
its 1-based position and text. Scrolling (`scrollToRange`) touches no
navigation state and is outside the model. -/
def navigateHighlight (direction : NavDirection) (s : NavState) : NavState × NavResult :=
  let s := if s.navDirty || s.navRanges.length == 0 then buildNavigationList s else s
  if s.navRanges.length == 0 then
    (s, { index := 0, total := 0, text := [] })
  else
    let n : Int := s.navRanges.length
    let idx : Int :=
      match direction with
      | .next => (s.navCurrentIndex + 1).tmod n
      | .prev => (s.navCurrentIndex - 1 + n).tmod n
    let range := s.navRanges.getD idx.toNat dummyRange
    ({ s with navCurrentIndex := idx, active := some range },
     { index := idx + 1, total := s.navRanges.length, text := range.text })

/-- `getNavigationState` (content.js lines 856-866): rebuild when dirty
or empty, then report the current position without moving the cursor. -/
def getNavigationState (s : NavState) : NavState × NavResult :=
  let s := if s.navDirty || s.navRanges.length == 0 then buildNavigationList s else s
  (s,
   { index := if 0 ≤ s.navCurrentIndex then s.navCurrentIndex + 1 else 0
     total := s.navRanges.length
     text := if 0 ≤ s.navCurrentIndex then
         (s.navRanges.getD s.navCurrentIndex.toNat dummyRange).text
       else [] })

/-- `clearNavigation` (content.js lines 871-882): empty the ordered
list, reset the cursor, drop the active highlight. -/
def clearNavigation (s : NavState) : NavState :=
  { s with navRanges := [], navCurrentIndex := -1, navDirty := false, active := none }

/-- `clearAllHighlights` (content.js lines 517-527): `CSS.highlights.clear()`
(which also drops the active entry), `rangeCache.clear()`, then
`clearNavigation()`. This is the only write that removes entries from
the range cache. -/
def clearAllHighlights (s : NavState) : NavState :=
  clearNavigation { s with rangeCache := [] }

/-- `navDirty = true`, as performed by `highlightTextNode` when it
registers a range (content.js line 506). -/
def markNavDirty (s : NavState) : NavState :=
  { s with navDirty := true }

/-- `Map.get(...).add(range)` with `Map.set` on first use (content.js
lines 499-503): append the range to the named bucket, creating the
bucket at the end of the insertion-ordered cache when absent. -/
def addToCache (name : String) (r : NavRange) :
    List (String × List NavRange) → List (String × List NavRange)
  | [] => [(name, [r])]
  | (k, v) :: rest =>
    if k = name then (k, v ++ [r]) :: rest else (k, v) :: addToCache name r rest

/-- Registration of one successfully created range (content.js lines
499-506): add it to the cache bucket of its highlight name and mark the
navigation list dirty. -/
def registerRange (name : String) (r : NavRange) (s : NavState) : NavState :=
  { s with rangeCache := addToCache name r s.rangeCache, navDirty := true }

/-- Applying `navigateHighlight .next` and keeping the state. -/
def nextState (s : NavState) : NavState :=
  (navigateHighlight .next s).1

/-- `k` successive `Advance(next)` steps. -/
def iterNext : Nat → NavState → NavState
  | 0, s => s
  | k + 1, s => iterNext k (nextState s)

/-! ## Scanner lemmas: accepted spans never overlap -/

/-- The scan invariant: the accepted spans are pairwise separated, and a
span accepted for a literal rule covers exactly one occurrence of the
rule's search text (it is never shortened or split). -/
def ScanInv (ms : List MatchSpan) : Prop :=
  ms.Pairwise Separated ∧
    ∀ m ∈ ms, m.rule.useRegex = false → m.stop = m.start + m.rule.text.length

lemma overlapsCheck_false_sep {index endIndex : Nat} {m : MatchSpan}
    (h : overlapsCheck index endIndex m = false) :
    m.stop ≤ index ∨ endIndex ≤ m.start := by
  simp only [overlapsCheck, Bool.or_eq_false_iff, Bool.and_eq_false_iff,
    decide_eq_false_iff_not, not_lt, not_le] at h
  omega

lemma addMatchIfNotOverlapping_inv {ms : List MatchSpan} {index endIndex : Nat}
    {rule : Rule} (hinv : ScanInv ms)
    (hlen : rule.useRegex = false → endIndex = index + rule.text.length) :
    ScanInv (addMatchIfNotOverlapping index endIndex rule ms) := by
  unfold addMatchIfNotOverlapping
  split
  · exact hinv
  · next hany =>
    have hall : ∀ m ∈ ms, overlapsCheck index endIndex m = false := by
      intro m hm
      rcases Bool.eq_false_or_eq_true (overlapsCheck index endIndex m) with h | h
      · exact absurd (List.any_eq_true.mpr ⟨m, hm, h⟩) hany
      · exact h
    constructor
    · refine List.pairwise_append.mpr ⟨hinv.1, List.pairwise_singleton _ _, ?_⟩
      intro a ha b hb
      rw [List.mem_singleton] at hb
      subst hb
      exact overlapsCheck_false_sep (hall a ha)
    · intro m hm
      rcases List.mem_append.mp hm with h | h
      · exact hinv.2 m h
      · rw [List.mem_singleton] at h
        subst h
        exact hlen

lemma regexScanLoop_inv (regex : CompiledRegex) (rule : Rule) (text : List Char)
    (hr : rule.useRegex = true) :
    ∀ fuel lastIndex ms ms2, ScanInv ms →
      regexScanLoop regex rule text fuel lastIndex ms = some ms2 → ScanInv ms2 := by
  intro fuel
  induction fuel with
  | zero =>
    intro li ms ms2 _ h
    simp [regexScanLoop] at h
  | succ fuel ih =>
    intro li ms ms2 hinv h
    rw [regexScanLoop] at h
    cases hexec : regex.exec text li with
    | none =>
      rw [hexec] at h
      cases h
      exact hinv
    | some pr =>
      obtain ⟨i, l⟩ := pr
      rw [hexec] at h
      simp only [] at h
      split at h
      · exact ih _ _ _ hinv h
      · refine ih _ _ _ (addMatchIfNotOverlapping_inv hinv ?_) h
        intro hfalse
        rw [hr] at hfalse
        cases hfalse

lemma literalScanLoop_inv (rule : Rule) (text compareText compareSearch : List Char)
    (matchWholeWord : Bool) :
    ∀ fuel startIndex ms ms2, ScanInv ms →
      literalScanLoop rule text compareText compareSearch rule.text.length
        matchWholeWord fuel startIndex ms = some ms2 → ScanInv ms2 := by
  intro fuel
  induction fuel with
  | zero =>
    intro si ms ms2 _ h
    simp [literalScanLoop] at h
  | succ fuel ih =>
    intro si ms ms2 hinv h
    rw [literalScanLoop] at h
    cases hidx : jsIndexOf compareText compareSearch si with
    | none =>
      rw [hidx] at h
      cases h
      exact hinv
    | some index =>
      rw [hidx] at h
      simp only [] at h
      refine ih _ _ _ ?_ h
      split
      · split
        · exact addMatchIfNotOverlapping_inv hinv fun _ => rfl
        · exact hinv
      · rw [if_pos rfl]
        exact addMatchIfNotOverlapping_inv hinv fun _ => rfl

lemma scanRule_inv (compiler : RegexCompiler) (fuel : Nat) (text : List Char)
    (ms : List MatchSpan) (rule : Rule) {ms2 : List MatchSpan} (hinv : ScanInv ms)
    (h : scanRule compiler fuel text ms rule = some ms2) : ScanInv ms2 := by
  unfold scanRule at h
  split at h
  · cases h
    exact hinv
  · next henabled =>
    split at h
    · next hregex =>
      cases hcomp : compiler rule.text with
      | none =>
        rw [hcomp] at h
        cases h
        exact hinv
      | some regex =>
        rw [hcomp] at h
        exact regexScanLoop_inv regex rule text hregex fuel 0 ms ms2 hinv h
    · exact literalScanLoop_inv rule text _ _ rule.matchWholeWord fuel 0 ms ms2 hinv h

lemma scanRulesFrom_inv (compiler : RegexCompiler) (fuel : Nat) (text : List Char) :
    ∀ rules ms ms2, ScanInv ms →
      scanRulesFrom compiler fuel text rules ms = some ms2 → ScanInv ms2 := by
  intro rules
  induction rules with
  | nil =>
    intro ms ms2 hinv h
    cases h
    exact hinv
  | cons rule rest ih =>
    intro ms ms2 hinv h
    rw [scanRulesFrom] at h
    cases hstep : scanRule compiler fuel text ms rule with
    | none =>
      rw [hstep] at h
      cases h
    | some ms1 =>
      rw [hstep] at h
      exact ih ms1 ms2 (scanRule_inv compiler fuel text ms rule hinv hstep) h

/-- C1: for every rule list and every text segment (and any behaviour of
the regex engine), the spans accepted by the scan phase of
`highlightTextNode` are pairwise non-overlapping: for any two distinct
accepted spans, one ends at or before the other starts. Moreover an
accepted occurrence of a literal rule is recorded whole: its span is
exactly one occurrence of the rule's search text, never split, merged or
shortened. -/
theorem highlightTextNode_spans_disjoint (compiler : RegexCompiler) (fuel : Nat)
    (rules : List Rule) (text : List Char) (ms : List MatchSpan)
    (h : highlightTextNode compiler fuel rules text = some ms) :
    ms.Pairwise Separated ∧
      ∀ m ∈ ms, m.rule.useRegex = false → m.stop = m.start + m.rule.text.length := by
  unfold highlightTextNode at h
  split at h
  · cases h
    exact ⟨List.Pairwise.nil, by intro m hm; cases hm⟩
  · exact scanRulesFrom_inv compiler fuel text rules [] ms
      ⟨List.Pairwise.nil, by intro m hm; cases hm⟩ h

/-! ## Concrete scenario inputs -/

/-- The word `error`. -/
def errWord : List Char := ['e', 'r', 'r', 'o', 'r']

/-- The spec's priority-0 group highlighting `error` in colour A
(Yellow from the palette). -/
def groupA : HighlightGroup :=
  { colour := "#FFF59D", textColor := "#000000", enabled := true, order := 0,
    words := [errWord], matchWholeWord := false, caseSensitive := false,
    useRegex := false }

/-- The spec's priority-1 group highlighting `error` in colour B. -/
def groupB : HighlightGroup :=
  { groupA with colour := "#80DEEA", order := 1 }

/-- The segment text `an error occurred`. -/
def anErrorText : List Char :=
  ['a', 'n', ' ', 'e', 'r', 'r', 'o', 'r', ' ', 'o', 'c', 'c', 'u', 'r', 'r', 'e', 'd']

/-- The segment text `errors`. -/
def errorsText : List Char := ['e', 'r', 'r', 'o', 'r', 's']

/-- The rule `{pattern: "error", wholeWordOnly: true}` of the C6 scenario. -/
def errorRuleWW : Rule :=
  { wordToRule groupA errWord with matchWholeWord := true }

/-- Witness for C1: running the scanner on `an error occurred` with the
`error` rule yields the single span `[3, 8)`, and the theorem applies to
this concrete run. -/
theorem highlightTextNode_spans_disjoint_witness :
    ([⟨3, 8, wordToRule groupA errWord⟩] : List MatchSpan).Pairwise Separated ∧
      ∀ m ∈ ([⟨3, 8, wordToRule groupA errWord⟩] : List MatchSpan),
        m.rule.useRegex = false → m.stop = m.start + m.rule.text.length :=
  highlightTextNode_spans_disjoint noRegexCompiler 20 [wordToRule groupA errWord]
    anErrorText [⟨3, 8, wordToRule groupA errWord⟩] (by decide)

/-- C6: on the segment text `errors` with the single literal rule
`error`, the scanner accepts zero matches when `wholeWordOnly` is true
(the trailing `s` is a word character, so the right side is not a
boundary), and exactly the one span `[0, 5)` covering `error` when
`wholeWordOnly` is false. -/
theorem whole_word_scenario :
    highlightTextNode noRegexCompiler 10 [errorRuleWW] errorsText = some [] ∧
      highlightTextNode noRegexCompiler 10 [wordToRule groupA errWord] errorsText =
        some [⟨0, 5, wordToRule groupA errWord⟩] := by
  constructor
  · decide
  · decide

/-! ## Scanner termination (C5, C10) -/

lemma indexOfAux_some {hay needle : List Char} :
    ∀ r k i, indexOfAux hay needle k r = some i →
      k ≤ i ∧ i + needle.length ≤ hay.length := by
  intro r
  induction r with
  | zero =>
    intro k i h
    rw [indexOfAux] at h
    split at h
    · next hm =>
      cases h
      have := of_decide_eq_true hm
      exact ⟨Nat.le_refl _, this.1⟩
    · cases h
  | succ r ih =>
    intro k i h
    rw [indexOfAux] at h
    split at h
    · next hm =>
      cases h
      have := of_decide_eq_true hm
      exact ⟨Nat.le_refl _, this.1⟩
    · have := ih (k + 1) i h
      exact ⟨Nat.le_of_succ_le this.1, this.2⟩

lemma jsIndexOf_some {hay needle : List Char} {start i : Nat}
    (h : jsIndexOf hay needle start = some i) :
    min start hay.length ≤ i ∧ i + needle.length ≤ hay.length :=
  indexOfAux_some _ _ _ h

lemma indexOfAux_empty_needle {hay : List Char} {k : Nat} (hk : k ≤ hay.length) :
    ∀ r, indexOfAux hay [] k r = some k := by
  intro r
  cases r <;> simp [indexOfAux, isMatchAt, hk]

lemma jsIndexOf_empty_needle (hay : List Char) (start : Nat) :
    jsIndexOf hay [] start = some (min start hay.length) :=
  indexOfAux_empty_needle (Nat.min_le_right _ _) _

lemma literalScanLoop_terminates (rule : Rule)
    (text compareText compareSearch : List Char) (searchLen : Nat) (ww : Bool)
    (hne : compareSearch ≠ []) :
    ∀ fuel startIndex ms, startIndex ≤ compareText.length + 1 →
      compareText.length + 2 ≤ fuel + startIndex →
      (literalScanLoop rule text compareText compareSearch searchLen ww
        fuel startIndex ms).isSome = true := by
  intro fuel
  induction fuel with
  | zero =>
    intro si ms h1 h2
    omega
  | succ fuel ih =>
    intro si ms h1 h2
    rw [literalScanLoop]
    cases hidx : jsIndexOf compareText compareSearch si with
    | none => rfl
    | some index =>
      simp only []
      obtain ⟨hge, hbound⟩ := jsIndexOf_some hidx
      have hnl : 1 ≤ compareSearch.length := by
        cases compareSearch with
        | nil => exact absurd rfl hne
        | cons a as => simp
      exact ih _ _ (by omega) (by omega)

lemma literalScanLoop_empty_diverges (rule : Rule) (text compareText : List Char)
    (searchLen : Nat) (ww : Bool) :
    ∀ fuel startIndex ms,
      literalScanLoop rule text compareText [] searchLen ww fuel startIndex ms = none := by
  intro fuel
  induction fuel with
  | zero => intro si ms; rfl
  | succ fuel ih =>
    intro si ms
    rw [literalScanLoop, jsIndexOf_empty_needle]
    simp only []
    exact ih _ _

/-- C10: the literal substring-search loop of `highlightTextNode`, as
invoked for a literal rule, terminates whenever the rule's search text
is non-empty (each iteration resumes one position past the found
occurrence, so with enough fuel the loop finishes); and the hypothesis
is necessary: for an empty search text the loop exhausts any amount of
fuel (`indexOf` keeps answering the clamped start position forever). -/
theorem literal_loop_termination (rule : Rule) (text : List Char)
    (compareText compareSearch : List Char)
    (_hct : compareText = if rule.caseSensitive then text else text.map Char.toLower)
    (hcs : compareSearch = if rule.caseSensitive then rule.text
      else rule.text.map Char.toLower) :
    (rule.text ≠ [] → ∀ fuel ms, compareText.length + 2 ≤ fuel →
      (literalScanLoop rule text compareText compareSearch rule.text.length
        rule.matchWholeWord fuel 0 ms).isSome = true) ∧
    (rule.text = [] → ∀ fuel ms,
      literalScanLoop rule text compareText compareSearch rule.text.length
        rule.matchWholeWord fuel 0 ms = none) := by
  constructor
  · intro hne fuel ms hfuel
    have hcs_ne : compareSearch ≠ [] := by
      subst hcs
      split
      · exact hne
      · simpa using hne
    exact literalScanLoop_terminates rule text compareText compareSearch
      rule.text.length rule.matchWholeWord hcs_ne fuel 0 ms (by omega) (by omega)
  · intro hempty fuel ms
    have hcs_empty : compareSearch = [] := by
      subst hcs
      rw [hempty]
      split <;> rfl
    rw [hcs_empty]
    exact literalScanLoop_empty_diverges rule text compareText
      rule.text.length rule.matchWholeWord fuel 0 ms

/-- Witness for C10: the termination half applied to the `error` rule on
`an error occurred` with fuel 19. -/
theorem literal_loop_termination_witness :
    (literalScanLoop (wordToRule groupA errWord) anErrorText
      (if (wordToRule groupA errWord).caseSensitive then anErrorText
       else anErrorText.map Char.toLower)
      (if (wordToRule groupA errWord).caseSensitive then (wordToRule groupA errWord).text
       else (wordToRule groupA errWord).text.map Char.toLower)
      (wordToRule groupA errWord).text.length (wordToRule groupA errWord).matchWholeWord
      19 0 []).isSome = true :=
  (literal_loop_termination (wordToRule groupA errWord) anErrorText _ _ rfl rfl).1
    (by decide) 19 [] (by decide)

/-- C5: for every pattern-expression rule and every segment text, the
regex matching loop of `highlightTextNode` terminates for any regex
engine obeying the JS `exec` contract: given fuel beyond the segment
length the loop always finishes, because every iteration — including a
zero-length match — moves `lastIndex` strictly forward. The second part
states the zero-length case exactly: a zero-length match at `index` is
skipped and the loop resumes at `index + 1`, one position past it. -/
theorem regex_loop_termination (regex : CompiledRegex) (rule : Rule) (text : List Char) :
    (∀ fuel lastIndex ms, lastIndex ≤ text.length + 1 →
      text.length + 2 ≤ fuel + lastIndex →
      (regexScanLoop regex rule text fuel lastIndex ms).isSome = true) ∧
    (∀ fuel lastIndex ms index,
      regex.exec text lastIndex = some (index, 0) →
      regexScanLoop regex rule text (fuel + 1) lastIndex ms =
        regexScanLoop regex rule text fuel (index + 1) ms) := by
  constructor
  · intro fuel
    induction fuel with
    | zero =>
      intro li ms h1 h2
      omega
    | succ fuel ih =>
      intro li ms h1 h2
      rw [regexScanLoop]
      cases hexec : regex.exec text li with
      | none => rfl
      | some pr =>
        obtain ⟨i, l⟩ := pr
        have hge := regex.exec_ge text li i l hexec
        have hbound := regex.exec_bound text li i l hexec
        simp only []
        split
        · next hl => exact ih _ _ (by omega) (by omega)
        · next hl => exact ih _ _ (by omega) (by omega)
  · intro fuel li ms index h
    rw [regexScanLoop, h]
    simp only []
    rw [if_pos trivial]

/-- A compiled regex whose every attempt is the zero-length match at the
current position (the behaviour of the pattern `(?:)`), exercising the
zero-length-advance path of the loop. -/
def emptyMatchRegex : CompiledRegex where
  exec := fun t li => if li ≤ t.length then some (li, 0) else none
  exec_ge := by
    intro t li i l h
    simp only [] at h
    split at h
    · cases h
      exact Nat.le_refl _
    · cases h
  exec_bound := by
    intro t li i l h
    simp only [] at h
    split at h
    · next hle =>
      cases h
      simpa using hle
    · cases h

/-- Witness for C5: the always-zero-length regex on a two-character text
terminates with fuel 4 (positions 0, 1, 2 are matched and skipped, then
`exec` fails past the end). -/
theorem regex_loop_termination_witness :
    (regexScanLoop emptyMatchRegex errorRuleWW ['a', 'b'] 4 0 []).isSome = true :=
  (regex_loop_termination emptyMatchRegex errorRuleWW ['a', 'b']).1 4 0 []
    (by decide) (by decide)

/-! ## Rule-compiler lemmas (C2) -/

lemma flattenGroupsToRules_foldl (groups : List HighlightGroup) :
    ∀ init : List Rule,
      groups.foldl
        (fun flatRules group =>
          if group.enabled then flatRules ++ group.words.map (wordToRule group)
          else flatRules) init =
      init ++ (groups.filter (fun g => g.enabled)).flatMap
        (fun g => g.words.map (wordToRule g)) := by
  induction groups with
  | nil =>
    intro init
    simp
  | cons g gs ih =>
    intro init
    rw [List.foldl_cons]
    by_cases hg : g.enabled
    · simp only [hg, if_pos, List.filter_cons_of_pos, List.flatMap_cons, ih,
        List.append_assoc]
    · simp only [hg, if_neg, List.filter_cons_of_neg, ih]
      simp [hg]

lemma flatMap_pairwise_order (gs : List HighlightGroup)
    (h : gs.Pairwise (fun g₁ g₂ => g₁.order ≤ g₂.order)) :
    (gs.flatMap (fun g => g.words.map (wordToRule g))).Pairwise
      (fun r₁ r₂ => r₁.order ≤ r₂.order) := by
  induction gs with
  | nil => simp
  | cons g rest ih =>
    rw [List.flatMap_cons]
    rw [List.pairwise_cons] at h
    refine List.pairwise_append.mpr ⟨?_, ih h.2, ?_⟩
    · rw [List.pairwise_map]
      exact List.pairwise_of_forall fun _ _ => Int.le_refl g.order
    · intro a ha b hb
      obtain ⟨w, _, rfl⟩ := List.mem_map.mp ha
      obtain ⟨g2, hg2, hb2⟩ := List.mem_flatMap.mp hb
      obtain ⟨w2, _, rfl⟩ := List.mem_map.mp hb2
      exact h.1 g2 hg2

/-- Two enabled single-word groups whose `order` fields are out of input
order: the first group has the higher priority value. -/
def groupHighOrder : HighlightGroup :=
  { groupA with order := 5, words := [['x']] }

/-- The lower-priority-value group, listed second. -/
def groupLowOrder : HighlightGroup :=
  { groupA with order := 0, words := [['y']], colour := "#F48FB1" }

/-- Counterexample to C2 as stated: `flattenGroupsToRules` performs no
sorting, so a configuration whose groups are not already listed in
ascending `order` produces a rule list that is not ordered by priority
value (here the orders come out as `[5, 0]`). -/
theorem flatten_not_priority_sorted :
    ¬ (flattenGroupsToRules [groupHighOrder, groupLowOrder]).Pairwise
        (fun r₁ r₂ => r₁.order ≤ r₂.order) := by
  decide

/-- C2 (amended): `flattenGroupsToRules` keeps the input group order: it
emits exactly one rule per word of each enabled group, in input order,
each rule inheriting its group's colour, text colour, order and match
options, and no rule from a disabled group (the `filter`/`flatMap`
characterisation). When the input groups are listed in ascending
priority value — the invariant the storage layer maintains — the output
is therefore priority-ordered, ties staying in input order. And with two
rules for `error` at priority values 0 (colour A) and 1 (colour B) on
`an error occurred`, only the lower-valued rule's span `[3, 8)` is
accepted. -/
theorem flattenGroupsToRules_spec :
    (∀ groups : List HighlightGroup,
      flattenGroupsToRules groups =
        (groups.filter (fun g => g.enabled)).flatMap
          (fun g => g.words.map (wordToRule g))) ∧
    (∀ groups : List HighlightGroup,
      groups.Pairwise (fun g₁ g₂ => g₁.order ≤ g₂.order) →
      (flattenGroupsToRules groups).Pairwise (fun r₁ r₂ => r₁.order ≤ r₂.order)) ∧
    highlightTextNode noRegexCompiler 20 (flattenGroupsToRules [groupA, groupB])
      anErrorText = some [⟨3, 8, wordToRule groupA errWord⟩] := by
  have heq : ∀ groups : List HighlightGroup,
      flattenGroupsToRules groups =
        (groups.filter (fun g => g.enabled)).flatMap
          (fun g => g.words.map (wordToRule g)) := by
    intro groups
    exact flattenGroupsToRules_foldl groups []
  refine ⟨heq, ?_, by decide⟩
  intro groups hsorted
  rw [heq]
  exact flatMap_pairwise_order _ (hsorted.filter _)

/-- Witness for C2: the sortedness component applied to the concrete
sorted configuration `[groupA, groupB]`. -/
theorem flattenGroupsToRules_spec_witness :
    (flattenGroupsToRules [groupA, groupB]).Pairwise
      (fun r₁ r₂ => r₁.order ≤ r₂.order) :=
  flattenGroupsToRules_spec.2.1 [groupA, groupB] (by decide)

/-! ## Navigation lemmas -/

lemma tmod_eq_emod_of_nonneg {a b : Int} (ha : 0 ≤ a) (hb : 0 ≤ b) :
    a.tmod b = a % b := by
  obtain ⟨m, rfl⟩ : ∃ m : Nat, a = Int.ofNat m := ⟨a.toNat, (Int.toNat_of_nonneg ha).symm⟩
  obtain ⟨k, rfl⟩ : ∃ k : Nat, b = Int.ofNat k := ⟨b.toNat, (Int.toNat_of_nonneg hb).symm⟩
  rfl

lemma tmod_range {a n : Int} (ha : 0 ≤ a) (hn : 0 < n) :
    0 ≤ a.tmod n ∧ a.tmod n < n := by
  rw [tmod_eq_emod_of_nonneg ha (le_of_lt hn)]
  exact ⟨Int.emod_nonneg a (ne_of_gt hn), Int.emod_lt_of_pos a hn⟩

lemma navigate_next_clean (s : NavState) (hdirty : s.navDirty = false)
    (hne : s.navRanges ≠ []) :
    navigateHighlight .next s =
      ({ s with
          navCurrentIndex := (s.navCurrentIndex + 1).tmod s.navRanges.length
          active := some (s.navRanges.getD
            ((s.navCurrentIndex + 1).tmod s.navRanges.length).toNat dummyRange) },
       { index := (s.navCurrentIndex + 1).tmod s.navRanges.length + 1
         total := s.navRanges.length
         text := (s.navRanges.getD
           ((s.navCurrentIndex + 1).tmod s.navRanges.length).toNat dummyRange).text }) := by
  have hlen : (s.navRanges.length == 0) = false := by
    simp [List.length_eq_zero, hne]
  simp [navigateHighlight, hdirty, hlen]

lemma navigate_prev_clean (s : NavState) (hdirty : s.navDirty = false)
    (hne : s.navRanges ≠ []) :
    (navigateHighlight .prev s).1.navCurrentIndex
      = (s.navCurrentIndex - 1 + s.navRanges.length).tmod s.navRanges.length := by
  have hlen : (s.navRanges.length == 0) = false := by
    simp [List.length_eq_zero, hne]
  simp [navigateHighlight, hdirty, hlen]

lemma iterNext_clean (R : List NavRange) (hR : R ≠ []) :
    ∀ (k : Nat) (s : NavState), s.navRanges = R → s.navDirty = false →
      -1 ≤ s.navCurrentIndex →
      (iterNext k s).navRanges = R ∧ (iterNext k s).navDirty = false ∧
      (iterNext k s).navCurrentIndex
        = (if k = 0 then s.navCurrentIndex
           else (s.navCurrentIndex + k) % (R.length : Int)) ∧
      -1 ≤ (iterNext k s).navCurrentIndex := by
  have hpos : 0 < (R.length : Int) := by
    have := List.length_pos.mpr hR
    omega
  intro k
  induction k with
  | zero =>
    intro s hranges hdirty hlo
    exact ⟨hranges, hdirty, (if_pos rfl).symm, hlo⟩
  | succ k ih =>
    intro s hranges hdirty hlo
    have hne : s.navRanges ≠ [] := by rw [hranges]; exact hR
    have hnext := navigate_next_clean s hdirty hne
    have hfields : (nextState s).navRanges = R ∧ (nextState s).navDirty = false ∧
        (nextState s).navCurrentIndex
          = (s.navCurrentIndex + 1) % (R.length : Int) := by
      rw [nextState, hnext]
      refine ⟨hranges, hdirty, ?_⟩
      simp only [hranges]
      exact tmod_eq_emod_of_nonneg (by omega) (by omega)
    have hcur_nonneg : 0 ≤ (nextState s).navCurrentIndex := by
      rw [hfields.2.2]
      exact Int.emod_nonneg _ (ne_of_gt hpos)
    have hrec := ih (nextState s) hfields.1 hfields.2.1 (by omega)
    refine ⟨hrec.1, hrec.2.1, ?_, hrec.2.2.2⟩
    show (iterNext k (nextState s)).navCurrentIndex = _
    rw [hrec.2.2.1, hfields.2.2]
    by_cases hk : k = 0
    · subst hk
      rw [if_pos rfl, if_neg (by omega)]
      push_cast
      ring_nf
    · rw [if_neg hk, if_neg (by omega)]
      rw [Int.add_emod ((s.navCurrentIndex + 1) % (R.length : Int)) k,
        Int.emod_emod_of_dvd _ dvd_rfl, ← Int.add_emod]
      push_cast
      ring_nf

/-- C4 (amended): on a clean (not dirty) non-empty index of `n` regions,
an `Advance(next)` step moves the cursor to `(cursor + 1) mod n` (third
conjunct); the call made after `n` further `Advance(next)` steps returns
exactly what the first call returned — `n` advances are a full cycle
(first conjunct); and `Advance(prev)` undoes `Advance(next)` whenever
the cursor is positioned, `0 ≤ cursor` (second conjunct). From the
unpositioned cursor `-1` the next/prev pair instead lands on the last
region (see the counterexample). -/
theorem navigate_wraparound_and_prev_inverse (s : NavState) (n : Nat)
    (hn : s.navRanges.length = n) (hne : s.navRanges ≠ [])
    (hdirty : s.navDirty = false) (hlo : -1 ≤ s.navCurrentIndex)
    (hhi : s.navCurrentIndex < (n : Int)) :
    (navigateHighlight .next (iterNext n s)).2 = (navigateHighlight .next s).2 ∧
    (0 ≤ s.navCurrentIndex →
      (navigateHighlight .prev (nextState s)).1.navCurrentIndex = s.navCurrentIndex) ∧
    (nextState s).navCurrentIndex = (s.navCurrentIndex + 1).tmod (n : Int) := by
  have hnpos : 0 < n := by
    have := List.length_pos.mpr hne
    omega
  have hpos : 0 < (n : Int) := by omega
  have hclean := navigate_next_clean s hdirty hne
  refine ⟨?_, ?_, ?_⟩
  · -- full cycle: the (n+1)-th call returns what the first call returned
    obtain ⟨hr, hd, hc, hge⟩ :=
      iterNext_clean s.navRanges hne n s rfl hdirty hlo
    have hne2 : (iterNext n s).navRanges ≠ [] := by rw [hr]; exact hne
    rw [navigate_next_clean (iterNext n s) hd hne2, hclean]
    rw [if_neg (by omega)] at hc
    have hcur : ((iterNext n s).navCurrentIndex + 1).tmod (s.navRanges.length : Int)
        = (s.navCurrentIndex + 1).tmod (s.navRanges.length : Int) := by
      rw [hc, hn]
      have hmodnn : 0 ≤ (s.navCurrentIndex + (n : Int)) % (n : Int) :=
        Int.emod_nonneg _ (ne_of_gt hpos)
      rw [tmod_eq_emod_of_nonneg (by omega) (by omega),
        tmod_eq_emod_of_nonneg (by omega) (by omega)]
      rw [Int.emod_add_emod]
      have harg : s.navCurrentIndex + (n : Int) + 1
          = s.navCurrentIndex + 1 + (n : Int) * 1 := by ring
      rw [harg, Int.add_mul_emod_self_left]
    rw [hr, hcur]
  · -- prev undoes next on a positioned cursor
    intro h0
    have hfields : (nextState s).navRanges = s.navRanges ∧
        (nextState s).navDirty = false ∧
        (nextState s).navCurrentIndex
          = (s.navCurrentIndex + 1) % (n : Int) := by
      rw [nextState, hclean]
      exact ⟨rfl, hdirty, by rw [hn, tmod_eq_emod_of_nonneg (by omega) (by omega)]⟩
    have hne2 : (nextState s).navRanges ≠ [] := by rw [hfields.1]; exact hne
    rw [navigate_prev_clean (nextState s) hfields.2.1 hne2, hfields.1, hn, hfields.2.2]
    have hc1_nonneg : 0 ≤ (s.navCurrentIndex + 1) % (n : Int) :=
      Int.emod_nonneg _ (ne_of_gt hpos)
    rw [tmod_eq_emod_of_nonneg (by omega) (by omega)]
    have harg : (s.navCurrentIndex + 1) % (n : Int) - 1 + (n : Int)
        = (s.navCurrentIndex + 1) % (n : Int) + ((n : Int) - 1) := by ring
    rw [harg, Int.emod_add_emod]
    have harg2 : s.navCurrentIndex + 1 + ((n : Int) - 1)
        = s.navCurrentIndex + (n : Int) * 1 := by ring
    rw [harg2, Int.add_mul_emod_self_left]
    exact Int.emod_eq_of_lt h0 hhi
  · rw [nextState, hclean]
    show (s.navCurrentIndex + 1).tmod (s.navRanges.length : Int) = _
    rw [hn]

/-- The first of two live regions of the C4 counterexample state. -/
def rangeA : NavRange :=
  { inMainDoc := true, isConnected := true, text := ['a'], pos := 0 }

/-- The second live region. -/
def rangeB : NavRange :=
  { inMainDoc := true, isConnected := true, text := ['b'], pos := 1 }

/-- A clean two-region navigation state with the unpositioned cursor. -/
def twoRangeState : NavState :=
  { rangeCache := [], navRanges := [rangeA, rangeB], navCurrentIndex := -1,
    navDirty := false, active := none }

/-- Counterexample to C4 as stated: from the unpositioned cursor `-1`
(the state every rebuild produces), `Advance(next)` moves to region 0
and `Advance(prev)` then moves to region 1 — the last region — rather
than restoring the prior cursor value `-1`, so `Advance(prev)` is not
the inverse of `Advance(next)` there. -/
theorem navigate_prev_not_inverse_at_unpositioned :
    twoRangeState.navCurrentIndex = -1 ∧
    (navigateHighlight .prev (navigateHighlight .next twoRangeState).1).1.navCurrentIndex
      = 1 := by
  decide

/-- Witness for C4: the theorem applied to a clean two-region state
positioned at cursor 0. -/
def twoRangePositioned : NavState :=
  { twoRangeState with navCurrentIndex := 0 }

theorem navigate_wraparound_witness :
    (navigateHighlight .next (iterNext 2 twoRangePositioned)).2
        = (navigateHighlight .next twoRangePositioned).2 ∧
    (0 ≤ twoRangePositioned.navCurrentIndex →
      (navigateHighlight .prev (nextState twoRangePositioned)).1.navCurrentIndex
        = twoRangePositioned.navCurrentIndex) ∧
    (nextState twoRangePositioned).navCurrentIndex
      = (twoRangePositioned.navCurrentIndex + 1).tmod ((2 : Nat) : Int) :=
  navigate_wraparound_and_prev_inverse twoRangePositioned 2 (by decide) (by decide)
    (by decide) (by decide) (by decide)

lemma mem_insertByPos {x r : NavRange} : ∀ {l : List NavRange},
    x ∈ insertByPos r l ↔ x = r ∨ x ∈ l := by
  intro l
  induction l with
  | nil => simp [insertByPos]
  | cons a as ih =>
    rw [insertByPos]
    split
    · rw [List.mem_cons, ih, List.mem_cons]
      tauto
    · rw [List.mem_cons, List.mem_cons]

lemma mem_sortByPos {x : NavRange} (l : List NavRange) :
    x ∈ sortByPos l ↔ x ∈ l := by
  suffices h : ∀ (l acc : List NavRange),
      x ∈ l.foldl (fun acc r => insertByPos r acc) acc ↔ x ∈ acc ∨ x ∈ l by
    rw [sortByPos, h]
    simp
  intro l
  induction l with
  | nil =>
    intro acc
    simp
  | cons a as ih =>
    intro acc
    rw [List.foldl_cons, ih, mem_insertByPos, List.mem_cons]
    tauto

lemma collect_eligible (cache : List (String × List NavRange)) :
    ∀ acc, (∀ r ∈ acc, eligibleRange r = true) →
      ∀ r ∈ cache.foldl (fun acc entry => acc ++ entry.2.filter eligibleRange) acc,
        eligibleRange r = true := by
  induction cache with
  | nil =>
    intro acc hacc
    exact hacc
  | cons e rest ih =>
    intro acc hacc
    rw [List.foldl_cons]
    apply ih
    intro r hr
    rcases List.mem_append.mp hr with h | h
    · exact hacc r h
    · exact List.of_mem_filter h

/-- C3 (amended): navigation-index construction excludes every region
that is detached, cross-document or empty from the ordered navigation
list, but it does not remove anything from the region cache — the cache
is read-only during a build, and the full clear (`clearAllHighlights`)
is the only operation that removes cache entries. A build also resets
the cursor to `-1` and clears the dirty flag. -/
theorem buildNavigationList_no_prune (s : NavState) :
    (buildNavigationList s).rangeCache = s.rangeCache ∧
    (∀ r ∈ (buildNavigationList s).navRanges, eligibleRange r = true) ∧
    (buildNavigationList s).navCurrentIndex = -1 ∧
    (buildNavigationList s).navDirty = false ∧
    (clearAllHighlights s).rangeCache = [] := by
  refine ⟨rfl, ?_, rfl, rfl, rfl⟩
  intro r hr
  have hr2 : r ∈ sortByPos
      (s.rangeCache.foldl (fun acc entry => acc ++ entry.2.filter eligibleRange) []) := hr
  have hr3 := (mem_sortByPos _).mp hr2
  exact collect_eligible s.rangeCache [] (by intro r h; cases h) r hr3

/-- A live range: attached to the main document, connected, non-empty. -/
def liveRange : NavRange :=
  { inMainDoc := true, isConnected := true, text := ['a'], pos := 0 }

/-- A dirty state whose cache holds one live range. -/
def cacheOneState : NavState :=
  { rangeCache := [("highlight-yellow", [liveRange])], navRanges := [],
    navCurrentIndex := -1, navDirty := true, active := none }

theorem buildNavigationList_no_prune_witness : eligibleRange liveRange = true :=
  (buildNavigationList_no_prune cacheOneState).2.1 liveRange (by decide)

/-- A range whose backing segment was detached from the document. -/
def staleRange : NavRange :=
  { inMainDoc := true, isConnected := false, text := ['a'], pos := 0 }

/-- A dirty state whose cache holds only the detached range. -/
def staleCacheState : NavState :=
  { rangeCache := [("highlight-yellow", [staleRange])], navRanges := [],
    navCurrentIndex := -1, navDirty := true, active := none }

/-- Counterexample to C3 as stated: after a build that detects the
detached range and drops it from the ordered navigation list, the range
is still present in the region cache — `buildNavigationList` removes
nothing from the cache. -/
theorem buildNavigationList_keeps_stale_cache_entry :
    staleRange.isConnected = false ∧
    (buildNavigationList staleCacheState).navRanges = [] ∧
    (buildNavigationList staleCacheState).rangeCache
      = [("highlight-yellow", [staleRange])] := by
  decide

/-- C7: when the cache yields no eligible region, `Advance` in either
direction first rebuilds (it always does on a dirty or empty index),
finds an empty list, and returns `{index: 0, total: 0, text: ''}`
through the early-return path — no region is indexed, the cursor is
`-1`, no active highlight is set and the cache is untouched. -/
theorem navigate_empty_index (s : NavState) (dir : NavDirection)
    (htrig : s.navDirty = true ∨ s.navRanges.length = 0)
    (hempty : (buildNavigationList s).navRanges = []) :
    navigateHighlight dir s
      = (buildNavigationList s, { index := 0, total := 0, text := [] }) ∧
    (buildNavigationList s).navCurrentIndex = -1 ∧
    (buildNavigationList s).rangeCache = s.rangeCache ∧
    (buildNavigationList s).active = s.active := by
  have hcond : (s.navDirty || s.navRanges.length == 0) = true := by
    rcases htrig with h | h <;> simp [h]
  refine ⟨?_, rfl, rfl, rfl⟩
  simp [navigateHighlight, hcond, hempty]

/-- Witness for C7: the `next` direction on the dirty state whose cache
holds only a detached range. -/
theorem navigate_empty_index_witness :
    navigateHighlight .next staleCacheState
      = (buildNavigationList staleCacheState, { index := 0, total := 0, text := [] }) ∧
    (buildNavigationList staleCacheState).navCurrentIndex = -1 ∧
    (buildNavigationList staleCacheState).rangeCache = staleCacheState.rangeCache ∧
    (buildNavigationList staleCacheState).active = staleCacheState.active :=
  navigate_empty_index staleCacheState .next (Or.inl rfl) (by decide)

/-! ## The cursor invariant (C8) -/

/-- The implicit cursor invariant: `navCurrentIndex` is either `-1` (not
positioned) or a valid index into `navRanges`, and an empty `navRanges`
forces `-1`. -/
def NavInvariant (s : NavState) : Prop :=
  (s.navCurrentIndex = -1 ∨
    (0 ≤ s.navCurrentIndex ∧ s.navCurrentIndex < (s.navRanges.length : Int))) ∧
  (s.navRanges = [] → s.navCurrentIndex = -1)

lemma cursor_next_range {c n : Int} (hc : -1 ≤ c) (hn : 0 < n) :
    0 ≤ (c + 1).tmod n ∧ (c + 1).tmod n < n :=
  tmod_range (by omega) hn

lemma cursor_prev_range {c n : Int} (hc : -1 ≤ c) (hn : 0 < n) :
    0 ≤ (c - 1 + n).tmod n ∧ (c - 1 + n).tmod n < n := by
  by_cases hd : 0 ≤ c - 1 + n
  · exact tmod_range hd hn
  · have hc1 : c = -1 := by omega
    have hn1 : n = 1 := by omega
    subst hc1
    subst hn1
    have harg : (-1 : Int) - 1 + 1 = -1 := by ring
    rw [harg]
    decide

/-- C8: every navigation-state operation — rebuild, `Advance` in either
direction, `clearNavigation`, the full clear, dirty-marking, and range
registration — preserves the cursor invariant (`navCurrentIndex` is `-1`
or a valid index, and is `-1` whenever the index is empty), and the
initial module state satisfies it. -/
theorem nav_invariant_preserved (s : NavState) (h : NavInvariant s) :
    NavInvariant (buildNavigationList s) ∧
    (∀ d, NavInvariant (navigateHighlight d s).1) ∧
    NavInvariant (clearNavigation s) ∧
    NavInvariant (clearAllHighlights s) ∧
    NavInvariant (markNavDirty s) ∧
    (∀ name r, NavInvariant (registerRange name r s)) ∧
    NavInvariant initialNavState := by
  refine ⟨⟨Or.inl rfl, fun _ => rfl⟩, ?_, ⟨Or.inl rfl, fun _ => rfl⟩,
    ⟨Or.inl rfl, fun _ => rfl⟩, ⟨h.1, h.2⟩, fun name r => ⟨h.1, h.2⟩,
    ⟨Or.inl rfl, fun _ => rfl⟩⟩
  intro d
  unfold navigateHighlight
  set s1 := if s.navDirty || s.navRanges.length == 0 then buildNavigationList s else s
    with hs1
  have h1 : NavInvariant s1 := by
    rw [hs1]
    split
    · exact ⟨Or.inl rfl, fun _ => rfl⟩
    · exact h
  by_cases hlen : (s1.navRanges.length == 0) = true
  · simp only [hlen, if_true]
    exact h1
  · simp only [hlen, if_false]
    have hn : 0 < (s1.navRanges.length : Int) := by
      simp only [beq_iff_eq] at hlen
      omega
    have hc : -1 ≤ s1.navCurrentIndex := by
      rcases h1.1 with h | h
      · omega
      · omega
    constructor
    · refine Or.inr ?_
      cases d
      · exact cursor_next_range hc hn
      · exact cursor_prev_range hc hn
    · intro hempty
      have hempty2 : s1.navRanges = [] := hempty
      rw [hempty2] at hn
      simp at hn

/-- Witness for C8: the preservation theorem applied to the positioned
two-region state; `clearNavigation` keeps the invariant. -/
theorem nav_invariant_preserved_witness :
    NavInvariant (clearNavigation twoRangePositioned) :=
  (nav_invariant_preserved twoRangePositioned
    ⟨Or.inr (by decide), by decide⟩).2.2.1

/-- C9: querying the navigation state while the index is dirty or empty
rebuilds it first; the rebuild resets the cursor to `-1`, so the query
reports index 0, the freshly built total, and empty matched text — any
previously held cursor position is silently discarded, and the cursor is
never advanced. -/
theorem getNavigationState_rebuild (s : NavState)
    (htrig : s.navDirty = true ∨ s.navRanges.length = 0) :
    getNavigationState s
      = (buildNavigationList s,
         { index := 0, total := (buildNavigationList s).navRanges.length, text := [] }) ∧
    (buildNavigationList s).navCurrentIndex = -1 := by
  have hcond : (s.navDirty || s.navRanges.length == 0) = true := by
    rcases htrig with h | h <;> simp [h]
  refine ⟨?_, rfl⟩
  have hidx : (buildNavigationList s).navCurrentIndex = -1 := rfl
  simp [getNavigationState, hcond, hidx]

/-- Witness for C9: the query on the dirty one-live-range state rebuilds
and reports position 0 of 1 with empty text. -/
theorem getNavigationState_rebuild_witness :
    getNavigationState cacheOneState
      = (buildNavigationList cacheOneState,
         { index := 0, total := (buildNavigationList cacheOneState).navRanges.length,
           text := [] }) ∧
    (buildNavigationList cacheOneState).navCurrentIndex = -1 :=
  getNavigationState_rebuild cacheOneState (Or.inl rfl)
